import Mathlib

/-!
Verification development for the graph-analytics and community-detection core
of the lemma-graph repository (scripts/benchmark_lemma_graph.py and
scripts/compute_clusters.py), as a shallow embedding in Lean 4.

Modelling conventions:
* Python floats are modelled as exact rationals (ℚ).
* pandas DataFrames are modelled as Lean lists of records; a DataFrame
  "column exists" check is modelled as "some record carries the field".
* Python dicts are modelled as insertion-ordered association lists; an
  overwriting insert keeps the key position, and lookups take the most
  recent binding.
* External library calls (igraph layout, leidenalg partitions, the stdlib
  random module sampler, igraph betweenness) are taken as explicit function
  parameters: the theorems quantify over them, so nothing is assumed about
  their behaviour beyond their types.
* Python sorted(...) is stable; it is modelled by insertion sort, which is
  stable for the non-strict orders used here.  For argsorts over distinct
  indices the stable descending sort coincides with the unique sort under
  the lexicographic order (key descending, index ascending), which is how
  it is defined below.
-/

/-- Python int() applied to a nonnegative or negative rational: truncation
toward zero (floor for nonnegative values, ceiling for negative ones). -/
def pyTrunc (q : ℚ) : Int := if 0 ≤ q then ⌊q⌋ else ⌈q⌉

/-- Code-point comparison of strings, charwise lexicographic with the
shorter prefix first: the comparison Python uses for str sorting. -/
def pyStrLeAux : List Char → List Char → Bool
  | [], _ => true
  | _ :: _, [] => false
  | a :: as, b :: bs =>
    if a.val < b.val then true
    else if b.val < a.val then false
    else pyStrLeAux as bs

/-- Python string less-or-equal (code-point lexicographic order). -/
def pyStrLe (a b : String) : Bool := pyStrLeAux a.data b.data

/-- Python sorted() on a list of strings (stable, ascending). -/
def pySortStrings (l : List String) : List String :=
  List.insertionSort (fun a b => pyStrLe a b = true) l

/-- The lexicographic order used to model Python
sorted(range(n), key=key, reverse=True): key descending, index ascending.
On the distinct indices of range(n) the stable descending sort is exactly
the unique sort under this total order. -/
def argsortRel {α : Type} [LinearOrder α] (key : Nat → α) (i j : Nat) : Prop :=
  key j < key i ∨ (key i = key j ∧ i ≤ j)

instance {α : Type} [LinearOrder α] (key : Nat → α) : DecidableRel (argsortRel key) :=
  fun i j => inferInstanceAs (Decidable (key j < key i ∨ (key i = key j ∧ i ≤ j)))

/-- Python sorted(range(n), key=key, reverse=True): indices 0..n-1 by key
descending, ties kept in original (ascending index) order. -/
def argsortDesc {α : Type} [LinearOrder α] (key : Nat → α) (n : Nat) : List Nat :=
  List.insertionSort (argsortRel key) (List.range n)

/-- The igraph object as used by the benchmark script: a vertex count, the
per-vertex "id" attribute, the edge list as index pairs, and the per-edge
"weight" attribute (other edge attributes are carried by the scripts but
never read back from the graph, so they are not modelled on the graph). -/
structure IGraph where
  n : Nat
  ids : List String
  edges : List (Nat × Nat)
  weights : List ℚ
deriving Repr, DecidableEq

/-- g.ecount(). -/
def ecount (g : IGraph) : Nat := g.edges.length

/-- Benchmark edge record after loading: source/target lemma, float weight,
relation-type label list, optional per-type mention counts (a dict,
modelled as an insertion-ordered association list). -/
structure EdgeRec where
  source : String
  target : String
  weight : ℚ
  relationTypes : List String
  relationTypeCounts : Option (List (String × ℚ))
deriving Repr, DecidableEq

/-- The value idx[s] for the Python dict idx built by
enumerate over ids with later bindings overwriting earlier ones
(so a duplicated id maps to its last position). -/
def dictIndex (ids : List String) (s : String) : Nat :=
  ids.enum.foldl (fun acc iv => if iv.2 = s then iv.1 else acc) 0

/-- to_igraph from benchmark_lemma_graph.py: keep the edges whose endpoints
are both known lemmas, then build an undirected graph on all the nodes with
those edges mapped to vertex indices.  No simplification is performed: the
kept edges, including self-loops and duplicate pairs, are carried verbatim. -/
def to_igraph (nodes : List String) (edges : List EdgeRec) : IGraph :=
  let ids := nodes
  let e2 := edges.filter (fun e => ids.contains e.source && ids.contains e.target)
  { n := ids.length
    ids := ids
    edges := e2.map (fun e => (dictIndex ids e.source, dictIndex ids e.target))
    weights := e2.map (fun e => e.weight) }

/-- Vertex degree: number of incident edge endpoints (a self-loop counts
twice), matching igraph's degree(). -/
def degOf (es : List (Nat × Nat)) (v : Nat) : Nat :=
  es.foldl (fun acc p =>
    acc + (if p.1 = v then 1 else 0) + (if p.2 = v then 1 else 0)) 0

/-- g.degree(): the degree sequence in vertex order. -/
def degreeList (g : IGraph) : List Nat :=
  (List.range g.n).map (degOf g.edges)

/-- Undirected neighbours of v in an edge list (with multiplicity). -/
def nbrs (es : List (Nat × Nat)) (v : Nat) : List Nat :=
  es.foldr (fun p acc =>
    if p.1 = v then p.2 :: acc else if p.2 = v then p.1 :: acc else acc) []

/-- Breadth-first levels: successive frontiers of newly discovered vertices.
The fuel bounds the number of levels; a vertex count is always enough. -/
def bfsLevels (es : List (Nat × Nat)) :
    Nat → List Nat → List Nat → List (List Nat)
  | 0, _, _ => []
  | fuel + 1, frontier, visited =>
    let next := ((frontier.flatMap (nbrs es)).filter
      (fun w => ¬ visited.contains w)).dedup
    match next with
    | [] => []
    | _ => next :: bfsLevels es fuel next (visited ++ next)

/-- Vertices reachable from s (s first, then in breadth-first order). -/
def reachList (es : List (Nat × Nat)) (fuel : Nat) (s : Nat) : List Nat :=
  s :: (bfsLevels es fuel [s] [s]).flatten

/-- g.components(): list of connected components, each listed when its first
vertex is met, matching igraph component numbering. -/
def componentsList (g : IGraph) : List (List Nat) :=
  ((List.range g.n).foldl (fun acc v =>
    if acc.2.contains v then acc
    else
      let comp := reachList g.edges g.n v
      (acc.1 ++ [comp], acc.2 ++ comp))
    (([], []) : List (List Nat) × List Nat)).1

/-- First list of maximal length (igraph giant component tie-breaking). -/
def firstMaxBy (comps : List (List Nat)) : List Nat :=
  comps.foldl (fun best c => if best.length < c.length then c else best) []

/-- Ascending sort of vertex indices (igraph keeps induced-subgraph vertices
in original index order). -/
def sortNatAsc (l : List Nat) : List Nat :=
  List.insertionSort (fun a b => a ≤ b) l

/-- Induced subgraph on a vertex list: vertices are reindexed by their
position in vs, edges with both endpoints in vs are kept with attributes. -/
def inducedSubgraph (g : IGraph) (vs : List Nat) : IGraph :=
  let kept := (g.edges.zip g.weights).filterMap (fun pw =>
    match vs.findIdx? (fun x => x = pw.1.1), vs.findIdx? (fun x => x = pw.1.2) with
    | some i, some j => some ((i, j), pw.2)
    | _, _ => none)
  { n := vs.length
    ids := vs.map (fun v => g.ids.getD v "")
    edges := kept.map (fun x => x.1)
    weights := kept.map (fun x => x.2) }

/-- comps.giant(): induced subgraph on the first largest component. -/
def giant (g : IGraph) : IGraph :=
  inducedSubgraph g (sortNatAsc (firstMaxBy (componentsList g)))

/-- Unweighted shortest-path distances from s to every vertex
(none for unreachable vertices), as igraph distances(source=s). -/
def distRow (g : IGraph) (s : Nat) : List (Option Nat) :=
  let levels := [s] :: bfsLevels g.edges g.n [s] [s]
  (List.range g.n).map (fun v => levels.findIdx? (fun lvl => lvl.contains v))

/-- Deduplicated neighbourhood of v, self excluded (simple-graph view used
for the local clustering coefficient). -/
def nbrSet (es : List (Nat × Nat)) (v : Nat) : List Nat :=
  ((nbrs es v).filter (fun w => w ≠ v)).dedup

/-- Adjacency test, undirected. -/
def adjacent (es : List (Nat × Nat)) (a b : Nat) : Bool :=
  es.any (fun p => (p.1 = a ∧ p.2 = b) ∨ (p.1 = b ∧ p.2 = a))

/-- Unordered pairs of distinct positions of a list. -/
def unordPairs : List Nat → List (Nat × Nat)
  | [] => []
  | a :: rest => rest.map (fun b => (a, b)) ++ unordPairs rest

/-- Local clustering coefficient of v, zero when fewer than 2 neighbours. -/
def localClustering (g : IGraph) (v : Nat) : ℚ :=
  let ns := nbrSet g.edges v
  let k := ns.length
  if k < 2 then 0
  else
    let links := (unordPairs ns).countP (fun p => adjacent g.edges p.1 p.2)
    (2 * (links : ℚ)) / ((k : ℚ) * ((k : ℚ) - 1))

/-- transitivity_avglocal_undirected(mode="zero"): mean local clustering
over all vertices, counting degree-0/1 vertices as zero. -/
def transitivityAvglocalZero (g : IGraph) : ℚ :=
  ((List.range g.n).map (localClustering g)).sum / (g.n : ℚ)

/-- Degree of v inside the vertex subset vs. -/
def degWithin (es : List (Nat × Nat)) (vs : List Nat) (v : Nat) : Nat :=
  es.foldl (fun acc p =>
    acc + (if p.1 = v ∧ vs.contains p.2 then 1 else 0)
        + (if p.2 = v ∧ vs.contains p.1 then 1 else 0)) 0

/-- One peeling round for the k-core: drop vertices of within-degree < k. -/
def peelStep (es : List (Nat × Nat)) (k : Nat) (vs : List Nat) : List Nat :=
  vs.filter (fun v => k ≤ degWithin es vs v)

/-- Iterate peeling to a fixpoint (fuel-bounded; vertex count suffices). -/
def peelFix (es : List (Nat × Nat)) (k : Nat) : Nat → List Nat → List Nat
  | 0, vs => vs
  | fuel + 1, vs =>
    let vs2 := peelStep es k vs
    if vs2.length = vs.length then vs else peelFix es k fuel vs2

/-- Vertex set of the k-core. -/
def kcoreVerts (g : IGraph) (k : Nat) : List Nat :=
  peelFix g.edges k (g.n + 1) (List.range g.n)

/-- max(g.coreness()): the largest k whose k-core is nonempty. -/
def maxCoreness (g : IGraph) : Nat :=
  ((List.range (g.n + 1)).filter (fun k => ¬ (kcoreVerts g k).isEmpty)).foldl max 0

/-- approx_distances_on_lcc: reseed the global random state from the
explicit seed, bail out on degenerate graphs, sample min(samples, lccSize)
source vertices from the largest connected component, run unweighted BFS
from each, and accumulate every finite positive distance.  The ambient
random state is overwritten by the reseeding, which is why the result does
not depend on it; the sampler itself (Python random.sample) is an external
function passed as a parameter. -/
def approx_distances_on_lcc {σ : Type} (seedInit : Nat → σ)
    (sampleFn : σ → Nat → Nat → List Nat) (g : IGraph) (samples : Nat)
    (seed : Nat) (ambient : σ) : Option ℚ × Option Nat :=
  let st := seedInit seed
  if g.n < 2 ∨ ecount g = 0 then (none, none)
  else
    let lcc := giant g
    if lcc.n < 2 ∨ ecount lcc = 0 then (none, none)
    else
      let sources := sampleFn st (min samples lcc.n) lcc.n
      let dists := sources.flatMap (fun s =>
        ((distRow lcc s).filterMap id).filter (fun d => 0 < d))
      match dists with
      | [] => (none, none)
      | _ => (some (((dists.map (fun d => (d : ℚ))).sum) / (dists.length : ℚ)),
              some (dists.foldl max 0))

/-- top_degree: top-k vertices by degree (ties by original vertex order). -/
def top_degree (g : IGraph) (k : Nat) : List (String × Nat) :=
  let deg := degreeList g
  ((argsortDesc (fun i => deg.getD i 0) g.n).take k).map
    (fun i => (g.ids.getD i "", deg.getD i 0))

/-- top_bridges_betweenness_approx: reseed from the explicit seed, bail out
on small/edgeless graphs, sample min(sample, lccSize) vertices of the LCC,
induce the subgraph on them, rank them by the external betweenness function
and return the top-k with their ids. -/
def top_bridges_betweenness_approx {σ : Type} (seedInit : Nat → σ)
    (sampleFn : σ → Nat → Nat → List Nat) (btwFn : IGraph → List ℚ)
    (g : IGraph) (k sample seed : Nat) (ambient : σ) : List (String × ℚ) :=
  let st := seedInit seed
  if g.n < 5 ∨ ecount g = 0 then []
  else
    let lcc := giant g
    if lcc.n < 5 ∨ ecount lcc = 0 then []
    else
      let verts := sampleFn st (min sample lcc.n) lcc.n
      let sub := inducedSubgraph lcc verts
      let btw := btwFn sub
      ((argsortDesc (fun i => btw.getD i 0) sub.n).take k).map
        (fun i => (sub.ids.getD i "", btw.getD i 0))

/-- Insertion-ordered increment of a counter dict. -/
def bumpCount (acc : List (String × Nat)) (t : String) : List (String × Nat) :=
  if acc.any (fun kv => kv.1 = t) then
    acc.map (fun kv => if kv.1 = t then (kv.1, kv.2 + 1) else kv)
  else acc ++ [(t, 1)]

/-- Python sorted(items, key=count, reverse=True) on dict items (stable). -/
def pySortByCountDesc (items : List (String × Nat)) : List (String × Nat) :=
  (argsortDesc (fun i => (items.getD i ("", 0)).2) items.length).map
    (fun i => items.getD i ("", 0))

/-- The metrics snapshot returned by compute_metrics. -/
structure Metrics where
  n_nodes : Nat
  n_edges : Nat
  n_components : Nat
  lcc_size : Nat
  lcc_ratio : ℚ
  isolates : Nat
  deg_p50 : Nat
  deg_p95 : Nat
  deg_max : Nat
  clustering_lcc : Option ℚ
  max_kcore : Option Nat
  avg_path_lcc : Option ℚ
  diameter_lcc : Option Nat
  leiden_modularity_lcc : Option ℚ
  leiden_n_comm_lcc : Option Nat
  top_relationTypes : String
deriving Repr, DecidableEq

/-- compute_metrics from benchmark_lemma_graph.py.  The leidenalg library
is optional at runtime: leidenFn is none when the import failed, and
otherwise an external partitioner returning (modularity, community count)
or none when it raises.  The stdlib sampler used by the distance
approximation is likewise passed in. -/
def compute_metrics {σ : Type} (seedInit : Nat → σ)
    (sampleFn : σ → Nat → Nat → List Nat) (ambient : σ)
    (leidenFn : Option (IGraph → Option (ℚ × Nat)))
    (nodes : List String) (edges : List EdgeRec) : Metrics :=
  let g := to_igraph nodes edges
  let n := g.n
  let m := ecount g
  let deg := degreeList g
  let degSorted := List.insertionSort (fun a b => a ≤ b) deg
  let pct : Nat → Nat := fun p =>
    if degSorted.isEmpty then 0
    else degSorted.getD
      (pyTrunc (((p : ℚ) / 100) * ((degSorted.length : ℚ) - 1))).toNat 0
  let compSizes := (componentsList g).map List.length
  let lccSize := compSizes.foldl max 0
  let lcc? : Option IGraph := if 0 < n ∧ 0 < m then some (giant g) else none
  let clustering : Option ℚ :=
    match lcc? with
    | none => none
    | some lcc =>
      if 2 < lcc.n ∧ 0 < ecount lcc then some (transitivityAvglocalZero lcc)
      else none
  let maxK : Option Nat := if 0 < n ∧ 0 < m then some (maxCoreness g) else none
  let leiden : Option (ℚ × Nat) :=
    match lcc? with
    | none => none
    | some lcc =>
      match leidenFn with
      | none => none
      | some f => if 2 < lcc.n ∧ 0 < ecount lcc then f lcc else none
  let dist := approx_distances_on_lcc seedInit sampleFn g 1000 123 ambient
  let typeCounts := edges.foldl (fun acc e => e.relationTypes.foldl bumpCount acc) []
  let topTypes := (pySortByCountDesc typeCounts).take 10
  { n_nodes := n
    n_edges := m
    n_components := compSizes.length
    lcc_size := lccSize
    lcc_ratio := if n = 0 then 0 else (lccSize : ℚ) / (n : ℚ)
    isolates := (deg.filter (fun d => d = 0)).length
    deg_p50 := pct 50
    deg_p95 := pct 95
    deg_max := deg.foldl max 0
    clustering_lcc := clustering
    max_kcore := maxK
    avg_path_lcc := dist.1
    diameter_lcc := dist.2
    leiden_modularity_lcc := leiden.map (fun x => x.1)
    leiden_n_comm_lcc := leiden.map (fun x => x.2)
    top_relationTypes :=
      String.intercalate ";"
        (topTypes.map (fun kv => kv.1 ++ ":" ++ Nat.repr kv.2)) }

/-- scen_baseline: the identity transform. -/
def scen_baseline (ne : List String × List EdgeRec) : List String × List EdgeRec := ne

/-- scen_weight_ge: keep edges of weight at least the threshold. -/
def scen_weight_ge (th : ℚ) (ne : List String × List EdgeRec) :
    List String × List EdgeRec :=
  (ne.1, ne.2.filter (fun e => th ≤ e.weight))

/-- The _has_counts test: the value is a dict and it is nonempty. -/
def hasCounts (e : EdgeRec) : Bool :=
  match e.relationTypeCounts with
  | some l => ¬ l.isEmpty
  | none => false

/-- The dict comprehension set to 1 per listed type; duplicate
labels collapse as dict keys do. -/
def dictOfTypes (ts : List String) : List (String × ℚ) :=
  ts.dedup.map (fun t => (t, 1))

/-- One loop body of the count-based branch of scen_remove_types: synthesize
counts when the edge has none, drop the removed types, recompute the weight
as the sum of the remaining counts, and rewrite the type list (sorted keys)
— or zero everything out when nothing remains. -/
def processEdgeCounts (remove : List String) (e : EdgeRec) : EdgeRec :=
  let counts :=
    match e.relationTypeCounts with
    | some l => l
    | none => dictOfTypes e.relationTypes
  let kept := counts.filter (fun kv => ¬ remove.contains kv.1)
  let w := (kept.map (fun kv => kv.2)).sum
  if w ≤ 0 then
    { e with relationTypeCounts := none, relationTypes := [], weight := 0 }
  else
    { e with relationTypeCounts := some kept
             relationTypes := pySortStrings (kept.map (fun kv => kv.1))
             weight := w }

/-- scen_remove_types: when any edge in the collection carries a nonempty
counts dict, rewrite every edge through the count-based branch and keep the
edges of positive weight; otherwise fall back to presence-based filtering
of the label lists, dropping edges whose list becomes empty (weights kept). -/
def scen_remove_types (remove : List String) (ne : List String × List EdgeRec) :
    List String × List EdgeRec :=
  let e := ne.2
  if e.any hasCounts then
    (ne.1, (e.map (processEdgeCounts remove)).filter (fun x => 0 < x.weight))
  else
    let e2 := e.map (fun ed =>
      { ed with relationTypes := ed.relationTypes.filter (fun t => ¬ remove.contains t) })
    (ne.1, e2.filter (fun ed => ¬ ed.relationTypes.isEmpty))

/-- k = max(1, int(nodeCount * frac)) from scen_drop_top_degree. -/
def dropK (frac : ℚ) (ne : List String × List EdgeRec) : Nat :=
  (max 1 (pyTrunc ((ne.1.length : ℚ) * frac))).toNat

/-- The top-k vertex indices by degree over the current graph, ties broken
by original vertex order (Python stable descending sort). -/
def dropTopIdx (frac : ℚ) (ne : List String × List EdgeRec) : List Nat :=
  let g := to_igraph ne.1 ne.2
  let deg := degreeList g
  (argsortDesc (fun i => deg.getD i 0) ne.1.length).take (dropK frac ne)

/-- The dropped lemma set of scen_drop_top_degree. -/
def dropTopSet (frac : ℚ) (ne : List String × List EdgeRec) : List String :=
  (dropTopIdx frac ne).map (fun i => ne.1.getD i "")

/-- scen_drop_top_degree: remove the top-degree lemmas and every edge
touching one of them. -/
def scen_drop_top_degree (frac : ℚ) (ne : List String × List EdgeRec) :
    List String × List EdgeRec :=
  let drop := dropTopSet frac ne
  (ne.1.filter (fun s => ¬ drop.contains s),
   ne.2.filter (fun e => ¬ drop.contains e.source ∧ ¬ drop.contains e.target))

/-- A raw node record of the input document.  A field is some value when the
key is present; the modelled domain has string values (the scripts
stringify everything they read). -/
structure RawNode where
  lem : Option String
  label : Option String
  name : Option String
  id : Option String
deriving Repr, DecidableEq

/-- A raw edge record of the input document. -/
structure RawEdge where
  source : Option String
  target : Option String
  weight : Option ℚ
  relationTypes : Option (List String)
  relationTypeCounts : Option (List (String × ℚ))
deriving Repr, DecidableEq

/-- The input JSON document: optional top-level collections. -/
structure RawDoc where
  nodes : Option (List RawNode)
  edges : Option (List RawEdge)
  links : Option (List RawEdge)
deriving Repr, DecidableEq

/-- load_lemma_graph from benchmark_lemma_graph.py.  Missing top-level keys
raise KeyError; a missing lemma column on nodes, or missing source/target
columns on edges, raise ValueError (a pandas column exists when some record
carries the key; a record missing a present column gets NaN, which
astype(str) renders as the string nan).  Defaults are then filled:
weight 1.0, relationTypes empty. -/
def load_lemma_graph (doc : RawDoc) : Except String (List String × List EdgeRec) :=
  match doc.nodes with
  | none => .error "KeyError: nodes"
  | some ns =>
    match doc.edges with
    | none => .error "KeyError: edges"
    | some es =>
      if ¬ ns.any (fun n => n.lem.isSome) then
        .error "nodes must have lemma"
      else if ¬ es.any (fun e => e.source.isSome) ∨ ¬ es.any (fun e => e.target.isSome) then
        .error "edges must have source and target"
      else
        .ok (ns.map (fun n => n.lem.getD "nan"),
             es.map (fun e =>
               { source := e.source.getD "nan"
                 target := e.target.getD "nan"
                 weight := e.weight.getD 1
                 relationTypes := e.relationTypes.getD []
                 relationTypeCounts := e.relationTypeCounts }))

/-- canonical_id from compute_clusters.py: first present (non-null) field in
priority order lemma > label > name > id; falls back to str(None) when even
the id key is absent.  (The lemma key is spelled lem here because lemma is
a reserved word in Lean.) -/
def canonical_id (node : RawNode) : String :=
  match node.lem with
  | some s => s
  | none =>
    match node.label with
    | some s => s
    | none =>
      match node.name with
      | some s => s
      | none =>
        match node.id with
        | some s => s
        | none => "None"

/-- Python str(a or b or ...): value of the first truthy element (a nonempty
string), else the stringified last element (empty string, or None rendered
as the string None). -/
def pyOrStr : List (Option String) → String
  | [] => "None"
  | [x] =>
    match x with
    | some s => s
    | none => "None"
  | x :: xs =>
    match x with
    | some s => if s = "" then pyOrStr xs else s
    | none => pyOrStr xs

/-- The raw key under which a node is registered in the raw-to-canonical id
map: str(n.get(id) or n.get(lemma) or n.get(label) or n.get(name)).
Note the different priority order (id first) and the different notion of
presence (truthiness) compared to canonical_id. -/
def originalKey (node : RawNode) : String :=
  pyOrStr [node.id, node.lem, node.label, node.name]

/-- The raw-id to canonical-id dict built in main(): one binding per node
record, later bindings overwriting earlier ones. -/
def build_id_map (nodes : List RawNode) : List (String × String) :=
  nodes.map (fun n => (originalKey n, canonical_id n))

/-- canonical_from_raw_id: dict lookup of the stringified raw id; the most
recent binding wins, absent keys give none. -/
def canonical_from_raw_id (raw : String) (idMap : List (String × String)) :
    Option String :=
  idMap.reverse.lookup raw

/-- A link record in compute_clusters.py (source and target are required
by the code, which subscripts them directly). -/
structure Link where
  source : String
  target : String
deriving Repr, DecidableEq

/-- compute_degrees: unweighted degree per canonical id, counting each link
whose endpoints both resolve and differ. -/
def compute_degrees (nodes : List RawNode) (links : List Link)
    (idMap : List (String × String)) : List (String × Nat) :=
  let init := nodes.map (fun n => (canonical_id n, 0))
  links.foldl (fun deg link =>
    match canonical_from_raw_id link.source idMap,
          canonical_from_raw_id link.target idMap with
    | some s, some t =>
      if s = t then deg
      else
        let deg1 := if deg.any (fun kv => kv.1 = s) then
            deg.map (fun kv => if kv.1 = s then (kv.1, kv.2 + 1) else kv)
          else deg ++ [(s, 1)]
        if deg1.any (fun kv => kv.1 = t) then
          deg1.map (fun kv => if kv.1 = t then (kv.1, kv.2 + 1) else kv)
        else deg1 ++ [(t, 1)]
    | _, _ => deg) init

/-- The igraph object of the clustering script: vertices carry a "name"
attribute. -/
structure NamedGraph where
  names : List String
  edges : List (Nat × Nat)
deriving Repr, DecidableEq

/-- Unordered key of an index pair. -/
def unordKey (p : Nat × Nat) : Nat × Nat := (min p.1 p.2, max p.1 p.2)

/-- igraph simplify(multiple=True, loops=True): drop self-loops and keep
one edge per unordered pair (attributes are discarded by combine_edges=None;
this graph carries none). -/
def simplifyEdges (es : List (Nat × Nat)) : List (Nat × Nat) :=
  (es.filter (fun p => p.1 ≠ p.2)).foldl
    (fun acc p => if acc.any (fun q => unordKey q = unordKey p) then acc
                  else acc ++ [p]) []

/-- build_igraph from compute_clusters.py: resolve both endpoints, drop
unresolved, self-equal, unselected or index-equal pairs, then simplify. -/
def build_igraph (selected : List String) (links : List Link)
    (idMap : List (String × String)) : NamedGraph :=
  let pairs := links.filterMap (fun l =>
    match canonical_from_raw_id l.source idMap,
          canonical_from_raw_id l.target idMap with
    | some s, some t =>
      if s = t then none
      else if ¬ selected.contains s ∨ ¬ selected.contains t then none
      else
        let i := dictIndex selected s
        let j := dictIndex selected t
        if i = j then none else some (i, j)
    | _, _ => none)
  { names := selected
    edges := if pairs.isEmpty then [] else simplifyEdges pairs }

/-- The configured granularity levels (name, resolution parameter). -/
def LEVELS : List (String × ℚ) :=
  [("supercluster", 1 / 10000), ("cluster", 1 / 100), ("galaxy", 14 / 100)]

/-- The singleton mapping used for an edgeless graph: the node at position i
gets cluster id levelName_solo_i. -/
def soloMapping (levelName : String) (names : List String) :
    List (String × String) :=
  names.enum.map (fun iv => (iv.2, levelName ++ "_solo_" ++ Nat.repr iv.1))

/-- The mapping produced from a Leiden membership list: the node at position
idx gets cluster id levelName_commId. -/
def leidenMapping (levelName : String) (names : List String)
    (membership : List Nat) : List (String × String) :=
  membership.enum.map (fun ic => (names.getD ic.1 "", levelName ++ "_" ++ Nat.repr ic.2))

/-- run_leiden_levels: on an edgeless graph every node is its own singleton
cluster at every level, without calling the partitioner; otherwise one
partitioner call per level.  The partitioner (leidenalg find_partition with
CPMVertexPartition) is an external function passed as a parameter taking
the resolution and the graph to a membership list. -/
def run_leiden_levels (leidenFn : ℚ → NamedGraph → List Nat) (g : NamedGraph) :
    List (String × List (String × String)) :=
  if g.edges.isEmpty then
    LEVELS.map (fun lv => (lv.1, soloMapping lv.1 g.names))
  else
    LEVELS.map (fun lv => (lv.1, leidenMapping lv.1 g.names (leidenFn lv.2 g)))

/-- Python truthiness of an optional string: falsy when absent or empty. -/
def optFalsy (o : Option String) : Bool :=
  match o with
  | none => true
  | some s => s.isEmpty

/-- Dict lookup in a level mapping (most recent binding wins). -/
def mappingGet (m : List (String × String)) (k : String) : Option String :=
  m.reverse.lookup k

/-- Append a member to its cluster bucket, inserting the bucket on first
sight (defaultdict(list) iterated in dict insertion order). -/
def addBucket (acc : List (String × List String)) (cid member : String) :
    List (String × List String) :=
  if acc.any (fun b => b.1 = cid) then
    acc.map (fun b => if b.1 = cid then (b.1, b.2 ++ [member]) else b)
  else acc ++ [(cid, [member])]

/-- Group the nodes of a cluster mapping by cluster id. -/
def bucketsOf (clusterMap : List (String × String)) :
    List (String × List String) :=
  clusterMap.foldl (fun acc p => addBucket acc p.2 p.1) []

/-- Python tuple(sorted((a, b))) on two strings. -/
def sortPairStr (a b : String) : String × String :=
  if pyStrLe a b then (a, b) else (b, a)

/-- Increment the counter of an unordered cluster pair (defaultdict(int)). -/
def bumpPair (acc : List ((String × String) × Nat)) (k : String × String) :
    List ((String × String) × Nat) :=
  if acc.any (fun q => q.1 = k) then
    acc.map (fun q => if q.1 = k then (q.1, q.2 + 1) else q)
  else acc ++ [(k, 1)]

/-- The inter-cluster crossing-edge counter of compute_cluster_layout: for
every raw link with distinct resolvable truthy endpoints in two distinct
clusters, bump the counter of the sorted cluster pair. -/
def interClusterWeights (clusterMap : List (String × String))
    (rawLinks : List Link) (idMap : List (String × String)) :
    List ((String × String) × Nat) :=
  rawLinks.foldl (fun acc link =>
    let s := canonical_from_raw_id link.source idMap
    let t := canonical_from_raw_id link.target idMap
    if optFalsy s ∨ optFalsy t then acc
    else if s = t then acc
    else
      let c1 := mappingGet clusterMap (s.getD "")
      let c2 := mappingGet clusterMap (t.getD "")
      if optFalsy c1 ∨ optFalsy c2 ∨ c1 = c2 then acc
      else bumpPair acc (sortPairStr (c1.getD "") (c2.getD ""))) []

/-- Python min over a list (meaningful for nonempty lists). -/
def listMin (l : List ℚ) : ℚ := l.foldl min (l.headD 0)

/-- Python max over a list (meaningful for nonempty lists). -/
def listMax (l : List ℚ) : ℚ := l.foldl max (l.headD 0)

/-- The per-axis normalization of compute_cluster_layout: map the observed
extent onto [-1000, 1000], collapsing a degenerate axis (spread below 1e-9)
to 0. -/
def normCoord (v vmin vmax : ℚ) : ℚ :=
  if vmax - vmin < 1 / 1000000000 then 0
  else (v - vmin) / (vmax - vmin) * 2000 - 1000

/-- One output entry of the cluster layout. -/
structure ClusterPos where
  x : ℚ
  y : ℚ
  size : Nat
  members : List String
deriving Repr, DecidableEq

/-- compute_cluster_layout from compute_clusters.py.  The force-directed or
circular layout itself is produced by igraph; its coordinates (one pair per
cluster vertex) enter as the coords parameter, and the function normalizes
them per axis and attaches sizes and member lists. -/
def compute_cluster_layout (clusterMap : List (String × String))
    (rawLinks : List Link) (idMap : List (String × String))
    (coords : List (ℚ × ℚ)) : List (String × ClusterPos) :=
  let buckets := bucketsOf clusterMap
  let clusterIds := buckets.map (fun b => b.1)
  if clusterIds.isEmpty then []
  else
    let xs := coords.map (fun c => c.1)
    let ys := coords.map (fun c => c.2)
    let minX := listMin xs
    let maxX := listMax xs
    let minY := listMin ys
    let maxY := listMax ys
    clusterIds.enum.map (fun ic =>
      let c := coords.getD ic.1 (0, 0)
      let members := ((buckets.lookup ic.2).getD [])
      (ic.2, { x := normCoord c.1 minX maxX
               y := normCoord c.2 minY maxY
               size := members.length
               members := members }))

/-- The edge collection actually consumed by compute_clusters.py main():
data.get(links) or data.get(edges) or [], where an empty list is falsy. -/
def clustersRawLinks (doc : RawDoc) : List RawEdge :=
  match doc.links with
  | some (l :: ls) => l :: ls
  | _ =>
    match doc.edges with
    | some (e :: es) => e :: es
    | _ => []

/-- Success test for an Except value. -/
def exceptOk {ε α : Type} (x : Except ε α) : Bool :=
  match x with
  | .ok _ => true
  | .error _ => false

/-- The edge with empty relationTypes used by the C3 counterexample. -/
def e0C3 : EdgeRec :=
  { source := "a", target := "b", weight := 1, relationTypes := [],
    relationTypeCounts := none }

/-- The negative-weight edge used by the C3 counterexample. -/
def e1C3 : EdgeRec :=
  { source := "a", target := "b", weight := -1, relationTypes := [],
    relationTypeCounts := none }

/-- The ordinary one-type edge used by the C3 witness. -/
def eWitC3 : EdgeRec :=
  { source := "a", target := "b", weight := 1, relationTypes := ["R"],
    relationTypeCounts := none }

instance {α : Type} [LinearOrder α] (key : Nat → α) : IsTotal Nat (argsortRel key) := by
  constructor
  intro i j
  rcases lt_trichotomy (key i) (key j) with h | h | h
  · exact Or.inr (Or.inl h)
  · rcases le_total i j with hij | hij
    · exact Or.inl (Or.inr ⟨h, hij⟩)
    · exact Or.inr (Or.inr ⟨h.symm, hij⟩)
  · exact Or.inl (Or.inl h)

instance {α : Type} [LinearOrder α] (key : Nat → α) : IsTrans Nat (argsortRel key) := by
  constructor
  intro i j k hij hjk
  rcases hij with h1 | ⟨h1, h1'⟩ <;> rcases hjk with h2 | ⟨h2, h2'⟩
  · exact Or.inl (h2.trans h1)
  · exact Or.inl (h2 ▸ h1)
  · exact Or.inl (h1 ▸ h2)
  · exact Or.inr ⟨h1.trans h2, h1'.trans h2'⟩

theorem argsortDesc_sorted {α : Type} [LinearOrder α] (key : Nat → α) (n : Nat) :
    List.Sorted (argsortRel key) (argsortDesc key n) :=
  List.sorted_insertionSort (argsortRel key) (List.range n)

theorem argsortDesc_perm {α : Type} [LinearOrder α] (key : Nat → α) (n : Nat) :
    (argsortDesc key n).Perm (List.range n) :=
  List.perm_insertionSort (argsortRel key) (List.range n)

theorem argsortDesc_nodup {α : Type} [LinearOrder α] (key : Nat → α) (n : Nat) :
    (argsortDesc key n).Nodup :=
  ((argsortDesc_perm key n).symm).nodup (List.nodup_range n)

theorem argsortDesc_mem {α : Type} [LinearOrder α] (key : Nat → α) (n i : Nat) :
    i ∈ argsortDesc key n ↔ i < n := by
  rw [(argsortDesc_perm key n).mem_iff, List.mem_range]

/-- Claim C6: the sampled approximate metrics are deterministic.  Both
estimators reseed the global random state from the explicit seed argument
before sampling, so their output does not depend on the ambient random
state: two invocations with the same seed, graph and sample size agree for
every choice of the external sampler and betweenness implementations. -/
theorem sampled_metrics_deterministic {σ : Type} (seedInit : Nat → σ)
    (sampleFn : σ → Nat → Nat → List Nat) (btwFn : IGraph → List ℚ)
    (g : IGraph) (samples k sample seed : Nat) (st1 st2 : σ) :
    approx_distances_on_lcc seedInit sampleFn g samples seed st1
      = approx_distances_on_lcc seedInit sampleFn g samples seed st2
    ∧ top_bridges_betweenness_approx seedInit sampleFn btwFn g k sample seed st1
      = top_bridges_betweenness_approx seedInit sampleFn btwFn g k sample seed st2 :=
  ⟨rfl, rfl⟩

/-- Claim C10: compute_metrics on the empty graph returns, without raising,
zero counts, lcc_ratio 0 (the division by the node count is guarded),
zero degree percentiles and maximum, and null clustering coefficient,
k-core, average path length and diameter, for every sampler and optional
partitioner. -/
theorem compute_metrics_empty_graph {σ : Type} (seedInit : Nat → σ)
    (sampleFn : σ → Nat → Nat → List Nat) (ambient : σ)
    (leidenFn : Option (IGraph → Option (ℚ × Nat))) :
    compute_metrics seedInit sampleFn ambient leidenFn [] []
      = { n_nodes := 0
          n_edges := 0
          n_components := 0
          lcc_size := 0
          lcc_ratio := 0
          isolates := 0
          deg_p50 := 0
          deg_p95 := 0
          deg_max := 0
          clustering_lcc := none
          max_kcore := none
          avg_path_lcc := none
          diameter_lcc := none
          leiden_modularity_lcc := none
          leiden_n_comm_lcc := none
          top_relationTypes := "" } := rfl

theorem dedupFold_spec (l : List (Nat × Nat)) :
    ∀ acc : List (Nat × Nat), (∀ p ∈ acc, p.1 ≠ p.2) → ((acc.map unordKey).Nodup) →
      (∀ p ∈ l, p.1 ≠ p.2) →
      (∀ p ∈ l.foldl (fun acc p =>
          if acc.any (fun q => unordKey q = unordKey p) then acc else acc ++ [p]) acc,
        p.1 ≠ p.2)
      ∧ ((l.foldl (fun acc p =>
          if acc.any (fun q => unordKey q = unordKey p) then acc else acc ++ [p]) acc).map
            unordKey).Nodup := by
  induction l with
  | nil => intro acc h1 h2 _; exact ⟨h1, h2⟩
  | cons a tl ih =>
    intro acc h1 h2 hl
    simp only [List.foldl_cons]
    by_cases h : acc.any (fun q => unordKey q = unordKey a) = true
    · rw [if_pos h]
      exact ih acc h1 h2 (fun p hp => hl p (List.mem_cons_of_mem a hp))
    · rw [if_neg h]
      refine ih (acc ++ [a]) ?_ ?_ (fun p hp => hl p (List.mem_cons_of_mem a hp))
      · intro p hp
        rcases List.mem_append.mp hp with hp | hp
        · exact h1 p hp
        · rw [List.mem_singleton.mp hp]
          exact hl a (List.mem_cons_self a tl)
      · rw [List.map_append]
        rw [List.nodup_append]
        refine ⟨h2, List.nodup_singleton _, ?_⟩
        intro x hx
        simp only [List.mem_map] at hx
        obtain ⟨q, hq, rfl⟩ := hx
        simp only [List.any_eq_true, decide_eq_true_eq, not_exists, not_and] at h
        intro hmem
        rw [List.map_singleton, List.mem_singleton] at hmem
        exact h q hq hmem

theorem simplifyEdges_spec (es : List (Nat × Nat)) :
    (∀ p ∈ simplifyEdges es, p.1 ≠ p.2)
    ∧ ((simplifyEdges es).map unordKey).Nodup := by
  unfold simplifyEdges
  refine dedupFold_spec _ [] (by simp) (by simp) ?_
  intro p hp
  have := List.of_mem_filter hp
  simpa using this

/-- Claim C1 counterexample: to_igraph performs no simplification, so an
input with a duplicated pair and a self-loop yields a graph containing a
self-loop edge and two edges on the same unordered pair. -/
theorem to_igraph_keeps_loops_and_duplicates :
    ((0, 0) ∈ (to_igraph ["a", "b"]
      [{ source := "a", target := "b", weight := 1, relationTypes := [],
         relationTypeCounts := none },
       { source := "a", target := "b", weight := 1, relationTypes := [],
         relationTypeCounts := none },
       { source := "a", target := "a", weight := 1, relationTypes := [],
         relationTypeCounts := none }]).edges)
    ∧ ¬ (((to_igraph ["a", "b"]
      [{ source := "a", target := "b", weight := 1, relationTypes := [],
         relationTypeCounts := none },
       { source := "a", target := "b", weight := 1, relationTypes := [],
         relationTypeCounts := none },
       { source := "a", target := "a", weight := 1, relationTypes := [],
         relationTypeCounts := none }]).edges).map unordKey).Nodup := by
  constructor
  · decide
  · decide

/-- Claim C1 amended: the clustering-script builder build_igraph produces no
self-loop and at most one edge per unordered pair (it carries no weight or
relation-type attributes, so no merging of weights or type sets happens
anywhere); the benchmark builder to_igraph enforces nothing: it keeps every
endpoint-resolvable input edge verbatim, without deduplication. -/
theorem graph_construction_simple (selected : List String) (links : List Link)
    (idMap : List (String × String)) :
    (∀ p ∈ (build_igraph selected links idMap).edges, p.1 ≠ p.2)
    ∧ (((build_igraph selected links idMap).edges.map unordKey).Nodup)
    ∧ ∀ (nodes : List String) (edges : List EdgeRec),
        (to_igraph nodes edges).edges.length
          = (edges.filter (fun e =>
              nodes.contains e.source && nodes.contains e.target)).length := by
  refine ⟨?_, ?_, ?_⟩
  · intro p hp
    unfold build_igraph at hp
    simp only at hp
    split at hp
    · exact absurd hp (List.not_mem_nil p)
    · exact (simplifyEdges_spec _).1 p hp
  · unfold build_igraph
    simp only
    split
    · simp
    · exact (simplifyEdges_spec _).2
  · intro nodes edges
    unfold to_igraph
    simp [List.length_map]

/-- Witness for the amended C1 on a concrete input with a duplicate pair, a
reversed duplicate and a self-loop. -/
theorem graph_construction_simple_witness :
    ((build_igraph ["a", "b"] [⟨"a", "b"⟩, ⟨"b", "a"⟩, ⟨"a", "a"⟩]
        [("a", "a"), ("b", "b")]).edges = [(0, 1)])
    ∧ (∀ p ∈ (build_igraph ["a", "b"] [⟨"a", "b"⟩, ⟨"b", "a"⟩, ⟨"a", "a"⟩]
        [("a", "a"), ("b", "b")]).edges, p.1 ≠ p.2) :=
  ⟨by decide, (graph_construction_simple _ _ _).1⟩

theorem lookup_self_of_diag (l : List (String × String))
    (hdiag : ∀ p ∈ l, p.1 = p.2) (k : String) (hk : ∃ p ∈ l, p.1 = k) :
    l.lookup k = some k := by
  induction l with
  | nil => simp at hk
  | cons a tl ih =>
    by_cases hak : k = a.1
    · have hv : a.2 = k := by rw [← hdiag a (List.mem_cons_self a tl), hak]
      have hbeq : (k == a.1) = true := beq_iff_eq.mpr hak
      simp [List.lookup, hbeq, hv]
    · have hk' : ∃ p ∈ tl, p.1 = k := by
        rcases hk with ⟨p, hp, hpk⟩
        rcases List.mem_cons.mp hp with rfl | hp
        · exact absurd hpk.symm hak
        · exact ⟨p, hp, hpk⟩
      have hbeq : (k == a.1) = false := by
        rw [beq_eq_false_iff_ne]
        exact hak
      have := ih (fun p hp => hdiag p (List.mem_cons_of_mem a hp)) hk'
      simpa [List.lookup, hbeq] using this

/-- Claim C4 counterexample: a node carrying both an id and a lemma is
registered in the raw-to-canonical map under its id (truthiness-based
precedence, id first), while its canonical id comes from the lemma
(presence-based precedence, lemma first); resolving the canonical id
through the map therefore yields none, not the id itself. -/
theorem canonical_not_idempotent :
    canonical_id { lem := some "Y", label := none, name := none, id := some "X" } = "Y"
    ∧ canonical_from_raw_id
        (canonical_id { lem := some "Y", label := none, name := none, id := some "X" })
        (build_id_map [{ lem := some "Y", label := none, name := none, id := some "X" }])
      = none := by
  constructor
  · rfl
  · decide

/-- Claim C4 amended: resolving a node's canonical id through the
raw-to-canonical map returns that id unchanged provided every node is
registered under its own canonical id, i.e. whenever each node's raw key
str(id or lemma or label or name) coincides with its canonical id (for
example when nodes carry no separate id field); without that agreement the
lookup can miss, as the counterexample shows. -/
theorem canonical_roundtrip (ns : List RawNode)
    (h : ∀ n ∈ ns, originalKey n = canonical_id n) :
    ∀ n ∈ ns, canonical_from_raw_id (canonical_id n) (build_id_map ns)
      = some (canonical_id n) := by
  intro n hn
  unfold canonical_from_raw_id
  refine lookup_self_of_diag _ ?_ _ ?_
  · intro p hp
    rw [List.mem_reverse] at hp
    unfold build_id_map at hp
    rcases List.mem_map.mp hp with ⟨m, hm, rfl⟩
    exact h m hm
  · refine ⟨(originalKey n, canonical_id n), ?_, h n hn⟩
    rw [List.mem_reverse]
    unfold build_id_map
    exact List.mem_map.mpr ⟨n, hn, rfl⟩

/-- Witness for the amended C4: a node identified only by its lemma. -/
theorem canonical_roundtrip_witness :
    canonical_from_raw_id
        (canonical_id { lem := some "chien", label := none, name := none, id := none })
        (build_id_map [{ lem := some "chien", label := none, name := none, id := none }])
      = some (canonical_id { lem := some "chien", label := none, name := none, id := none }) :=
  canonical_roundtrip _ (by decide) _ (by decide)

/-- Claim C7: on a graph with zero edges, community detection places each
node in its own singleton cluster at every configured level, without
invoking the partitioning algorithm (the result is the same for every
partitioner), the node at position i getting cluster id levelName_solo_i;
in particular, an edgeless 3-node graph yields exactly 3 singleton
clusters, with pairwise distinct cluster ids, at each of the three
configured levels. -/
theorem run_leiden_levels_edgeless (g : NamedGraph)
    (f1 f2 : ℚ → NamedGraph → List Nat) (hE : g.edges = []) :
    run_leiden_levels f1 g = run_leiden_levels f2 g
    ∧ run_leiden_levels f1 g = LEVELS.map (fun lv => (lv.1, soloMapping lv.1 g.names))
    ∧ (∀ (lv : String) (i : Nat) (nm : String), g.names.get? i = some nm →
        (soloMapping lv g.names).get? i = some (nm, lv ++ "_solo_" ++ Nat.repr i))
    ∧ (∀ lvm ∈ LEVELS,
        ((soloMapping lvm.1 ["a", "b", "c"]).map (fun p => p.2)).Nodup
        ∧ (soloMapping lvm.1 ["a", "b", "c"]).length = 3) := by
  have hbranch : ∀ f : ℚ → NamedGraph → List Nat,
      run_leiden_levels f g = LEVELS.map (fun lv => (lv.1, soloMapping lv.1 g.names)) := by
    intro f
    unfold run_leiden_levels
    rw [if_pos]
    rw [hE]
    rfl
  refine ⟨(hbranch f1).trans (hbranch f2).symm, hbranch f1, ?_, ?_⟩
  · intro lv i nm hnm
    unfold soloMapping
    rw [List.get?_map, List.get?_enum, hnm]
    rfl
  · intro lvm hlv
    have : lvm = ("supercluster", (1 : ℚ) / 10000) ∨ lvm = ("cluster", (1 : ℚ) / 100)
        ∨ lvm = ("galaxy", (14 : ℚ) / 100) := by
      simpa [LEVELS] using hlv
    rcases this with rfl | rfl | rfl
    · exact ⟨by decide, by decide⟩
    · exact ⟨by decide, by decide⟩
    · exact ⟨by decide, by decide⟩

/-- Witness for C7 on the concrete edgeless 3-node graph, with two distinct
partitioners: detection output is partitioner-independent. -/
theorem run_leiden_levels_edgeless_witness :
    run_leiden_levels (fun _ _ => [0, 0, 0]) { names := ["a", "b", "c"], edges := [] }
      = run_leiden_levels (fun _ _ => [0, 1, 2]) { names := ["a", "b", "c"], edges := [] } :=
  (run_leiden_levels_edgeless { names := ["a", "b", "c"], edges := [] }
    (fun _ _ => [0, 0, 0]) (fun _ _ => [0, 1, 2]) rfl).1

/-- Claim C5 counterexample: a document whose edge collection is named
links (with well-formed edges) and whose single node carries a resolvable
label identifier is rejected by the benchmark loader, which requires the
collection key edges and the node field lemma specifically. -/
theorem load_rejects_links_and_label :
    load_lemma_graph
      { nodes := some [{ lem := none, label := some "a", name := none, id := none }],
        edges := none,
        links := some [{ source := some "x", target := some "y", weight := none,
                         relationTypes := none, relationTypeCounts := none }] }
      = Except.error "KeyError: edges"
    ∧ load_lemma_graph
      { nodes := some [{ lem := none, label := some "a", name := none, id := none }],
        edges := some [{ source := some "x", target := some "y", weight := none,
                         relationTypes := none, relationTypeCounts := none }],
        links := none }
      = Except.error "nodes must have lemma" :=
  ⟨rfl, rfl⟩

/-- Claim C5 amended: the benchmark loader accepts only the collection
named edges (never links) and only the lemma identifier on nodes: it
succeeds exactly when the nodes and edges collections are present, some
node carries lemma and some edge carries source and some carries target,
and raises before producing any output otherwise.  The clustering script,
by contrast, reads links or edges (links preferred, empty collections
falsy) and never validates node identifiers. -/
theorem load_lemma_graph_accepts (doc : RawDoc) :
    (exceptOk (load_lemma_graph doc) = true ↔
      ∃ ns es, doc.nodes = some ns ∧ doc.edges = some es
        ∧ (∃ n ∈ ns, n.lem.isSome = true)
        ∧ (∃ e ∈ es, e.source.isSome = true)
        ∧ (∃ e ∈ es, e.target.isSome = true))
    ∧ (∀ es, doc.links = some es → es ≠ [] → clustersRawLinks doc = es)
    ∧ (doc.links = none → ∀ es, doc.edges = some es → clustersRawLinks doc = es) := by
  refine ⟨?_, ?_, ?_⟩
  · rcases doc with ⟨nodes, edges, links⟩
    cases nodes with
    | none => simp [load_lemma_graph, exceptOk]
    | some ns =>
      cases edges with
      | none => simp [load_lemma_graph, exceptOk]
      | some es =>
        by_cases h1 : ∃ n ∈ ns, n.lem.isSome = true
        · by_cases h2 : ∃ e ∈ es, e.source.isSome = true
          · by_cases h3 : ∃ e ∈ es, e.target.isSome = true
            · simp [load_lemma_graph, exceptOk, h1, h2, h3]
            · simp [load_lemma_graph, exceptOk, h1, h2, h3]
          · simp [load_lemma_graph, exceptOk, h1, h2]
        · simp [load_lemma_graph, exceptOk, h1]
  · intro es hl hne
    rcases doc with ⟨nodes, edges, links⟩
    simp only at hl
    subst hl
    cases es with
    | nil => exact absurd rfl hne
    | cons e es => rfl
  · intro hl es he
    rcases doc with ⟨nodes, edges, links⟩
    simp only at hl he
    subst hl
    subst he
    cases es with
    | nil => rfl
    | cons e es => rfl

/-- Witness for the amended C5: a minimal accepted document, and the
clustering script reading the links collection. -/
theorem load_lemma_graph_accepts_witness :
    (exceptOk (load_lemma_graph
      { nodes := some [{ lem := some "a", label := none, name := none, id := none }],
        edges := some [{ source := some "a", target := some "a", weight := none,
                         relationTypes := none, relationTypeCounts := none }],
        links := none }) = true)
    ∧ clustersRawLinks
        { nodes := some [],
          edges := some [],
          links := some [{ source := some "x", target := some "y", weight := none,
                           relationTypes := none, relationTypeCounts := none }] }
      = [{ source := some "x", target := some "y", weight := none,
           relationTypes := none, relationTypeCounts := none }] := by
  constructor
  · refine (load_lemma_graph_accepts _).1.mpr ⟨_, _, rfl, rfl, ?_, ?_, ?_⟩
    · exact ⟨_, List.mem_singleton.mpr rfl, rfl⟩
    · exact ⟨_, List.mem_singleton.mpr rfl, rfl⟩
    · exact ⟨_, List.mem_singleton.mpr rfl, rfl⟩
  · exact (load_lemma_graph_accepts _).2.1 _ rfl (by decide)

/-- Claim C9: scen_remove_types switches to its count-based strategy as soon
as any edge of the whole collection carries a nonempty relationTypeCounts
dict; in that mode an edge with no counts dict gets counts synthesized as 1
per listed type, so its weight is rewritten to the number of its (distinct)
listed relation types even when the removed set touches none of them, and
the edge survives when that number is positive. -/
theorem scen_remove_types_counts_mode (remove : List String)
    (nodes : List String) (edges : List EdgeRec)
    (h : edges.any hasCounts = true) :
    scen_remove_types remove (nodes, edges)
      = (nodes, (edges.map (processEdgeCounts remove)).filter (fun x => 0 < x.weight))
    ∧ ∀ e ∈ edges, e.relationTypeCounts = none → e.relationTypes.Nodup →
        (∀ t ∈ e.relationTypes, ¬ remove.contains t = true) →
        (processEdgeCounts remove e).weight = (e.relationTypes.length : ℚ)
        ∧ (e.relationTypes ≠ [] →
            processEdgeCounts remove e ∈ (scen_remove_types remove (nodes, edges)).2) := by
  have hbranch : scen_remove_types remove (nodes, edges)
      = (nodes, (edges.map (processEdgeCounts remove)).filter (fun x => 0 < x.weight)) := by
    unfold scen_remove_types
    simp only [h]
    rfl
  refine ⟨hbranch, ?_⟩
  intro e he hcnone hnd hdisj
  have hkept : (dictOfTypes e.relationTypes).filter
      (fun kv => ¬ remove.contains kv.1) = dictOfTypes e.relationTypes := by
    rw [List.filter_eq_self]
    intro kv hkv
    unfold dictOfTypes at hkv
    rcases List.mem_map.mp hkv with ⟨t, ht, rfl⟩
    simpa using hdisj t (List.mem_dedup.mp ht)
  have hsum : (((dictOfTypes e.relationTypes).filter
      (fun kv => ¬ remove.contains kv.1)).map (fun kv => kv.2)).sum
      = (e.relationTypes.length : ℚ) := by
    rw [hkept]
    unfold dictOfTypes
    rw [List.map_map]
    show (e.relationTypes.dedup.map (fun _ => (1 : ℚ))).sum = _
    rw [List.map_const', List.sum_replicate, List.dedup_eq_self.mpr hnd]
    simp [nsmul_eq_mul]
  have hw : (processEdgeCounts remove e).weight = (e.relationTypes.length : ℚ) := by
    unfold processEdgeCounts
    rw [hcnone]
    simp only
    split
    · rename_i h0
      rw [hsum] at h0
      have hz : (e.relationTypes.length : ℚ) = 0 :=
        le_antisymm h0 (by positivity)
      simp [hz]
    · simpa using hsum
  refine ⟨hw, ?_⟩
  intro hne
  rw [hbranch]
  simp only
  refine List.mem_filter.mpr ⟨List.mem_map.mpr ⟨e, he, rfl⟩, ?_⟩
  rw [hw]
  simp only [decide_eq_true_eq]
  exact_mod_cast Nat.pos_of_ne_zero (fun hc => hne (List.length_eq_zero.mp hc))

/-- Witness for C9: one edge with real counts puts the whole collection in
count mode; the countless two-type edge has its weight rewritten from 7 to
its type count 2. -/
theorem scen_remove_types_counts_mode_witness :
    (processEdgeCounts ["Z"]
      { source := "a", target := "b", weight := 7, relationTypes := ["A", "B"],
        relationTypeCounts := none }).weight
      = ((["A", "B"] : List String).length : ℚ) :=
  ((scen_remove_types_counts_mode ["Z"] ["a", "b"]
      [{ source := "a", target := "b", weight := 3, relationTypes := ["R"],
         relationTypeCounts := some [("R", 2)] },
       { source := "a", target := "b", weight := 7, relationTypes := ["A", "B"],
         relationTypeCounts := none }]
      (by decide)).2
    { source := "a", target := "b", weight := 7, relationTypes := ["A", "B"],
      relationTypeCounts := none }
    (List.mem_cons_of_mem _ (List.mem_cons_self _ _))
    rfl (by decide) (by decide)).1



/-- Claim C3 counterexample: with the no-op parameters of the claim the
Metrics Engine output is not preserved in general.  A remove-relation-types
scenario whose removed set is disjoint from every present type still drops
an edge whose relationTypes list is empty (fallback branch), and a
weight-threshold of 0 drops an edge of negative weight; in both cases
n_edges differs from the baseline. -/
theorem baseline_noop_fails :
    ¬ (compute_metrics (fun _ => ()) (fun _ k n => (List.range n).take k) () none
        (scen_remove_types ["Z"] (["a", "b"], [e0C3])).1
        (scen_remove_types ["Z"] (["a", "b"], [e0C3])).2
      = compute_metrics (fun _ => ()) (fun _ k n => (List.range n).take k) () none
        ["a", "b"] [e0C3])
    ∧ ¬ (compute_metrics (fun _ => ()) (fun _ k n => (List.range n).take k) () none
        (scen_weight_ge 0 (["a", "b"], [e1C3])).1
        (scen_weight_ge 0 (["a", "b"], [e1C3])).2
      = compute_metrics (fun _ => ()) (fun _ k n => (List.range n).take k) () none
        ["a", "b"] [e1C3]) := by
  constructor
  · intro h
    have hn := congrArg Metrics.n_edges h
    revert hn
    decide
  · intro h
    have hn := congrArg Metrics.n_edges h
    revert hn
    decide

/-- Claim C3 amended: the baseline Metrics Engine output equals the output
after a weight-threshold-0 scenario provided every edge weight is
nonnegative, and equals the output after a remove-relation-types scenario
with a removed set disjoint from every present type provided additionally
that no edge carries a counts dict and every edge lists at least one
relation type (otherwise the scenario rewrites weights or drops edges, as
the counterexample shows).  Under those conditions both transforms are the
identity, so every metric agrees. -/
theorem baseline_noop_scenarios {σ : Type} (seedInit : Nat → σ)
    (sampleFn : σ → Nat → Nat → List Nat) (ambient : σ)
    (leidenFn : Option (IGraph → Option (ℚ × Nat)))
    (nodes : List String) (edges : List EdgeRec) (remove : List String) :
    ((∀ e ∈ edges, 0 ≤ e.weight) →
      compute_metrics seedInit sampleFn ambient leidenFn
          (scen_weight_ge 0 (nodes, edges)).1 (scen_weight_ge 0 (nodes, edges)).2
        = compute_metrics seedInit sampleFn ambient leidenFn nodes edges)
    ∧ ((∀ e ∈ edges, hasCounts e = false) →
       (∀ e ∈ edges, e.relationTypes ≠ []) →
       (∀ e ∈ edges, ∀ t ∈ e.relationTypes, ¬ remove.contains t = true) →
      compute_metrics seedInit sampleFn ambient leidenFn
          (scen_remove_types remove (nodes, edges)).1
          (scen_remove_types remove (nodes, edges)).2
        = compute_metrics seedInit sampleFn ambient leidenFn nodes edges) := by
  constructor
  · intro hw
    have hid : scen_weight_ge 0 (nodes, edges) = (nodes, edges) := by
      unfold scen_weight_ge
      simp only [Prod.mk.injEq, true_and]
      rw [List.filter_eq_self]
      intro e he
      simpa using hw e he
    rw [hid]
  · intro hc ht hd
    have hany : edges.any hasCounts = false := by
      rw [List.any_eq_false]
      intro e he
      simp [hc e he]
    have hid : scen_remove_types remove (nodes, edges) = (nodes, edges) := by
      unfold scen_remove_types
      simp only [hany]
      simp only [Bool.false_eq_true, if_false]
      have hmap : edges.map (fun ed =>
          { ed with
            relationTypes := ed.relationTypes.filter (fun t => ¬ remove.contains t) })
          = edges := by
        have hcongr : ∀ ed ∈ edges,
            ({ ed with
               relationTypes := ed.relationTypes.filter (fun t => ¬ remove.contains t) }
              : EdgeRec) = ed := by
          intro ed hed
          have hfe : ed.relationTypes.filter (fun t => ¬ remove.contains t)
              = ed.relationTypes := by
            rw [List.filter_eq_self]
            intro t htl
            simpa using hd ed hed t htl
          rw [hfe]
        rw [List.map_congr_left hcongr]
        exact List.map_id' edges
      rw [hmap]
      simp only [Prod.mk.injEq, true_and]
      rw [List.filter_eq_self]
      intro e he
      simpa using ht e he
    rw [hid]


/-- Witness for the amended C3 on a one-edge graph satisfying the
hypotheses of the weight-threshold part. -/
theorem baseline_noop_scenarios_witness :
    compute_metrics (fun _ => ()) (fun _ k n => (List.range n).take k) () none
        (scen_weight_ge 0 (["a", "b"], [eWitC3])).1
        (scen_weight_ge 0 (["a", "b"], [eWitC3])).2
      = compute_metrics (fun _ => ()) (fun _ k n => (List.range n).take k) () none
        ["a", "b"] [eWitC3] :=
  (baseline_noop_scenarios (fun _ => ()) (fun _ k n => (List.range n).take k) () none
    ["a", "b"] [eWitC3] ["Z"]).1 (by decide)

theorem pyTrunc_of_nonneg (q : ℚ) (h : 0 ≤ q) : pyTrunc q = ⌊q⌋ := by
  unfold pyTrunc
  exact if_pos h

theorem argsortDesc_length {α : Type} [LinearOrder α] (key : Nat → α) (n : Nat) :
    (argsortDesc key n).length = n := by
  rw [(argsortDesc_perm key n).length_eq, List.length_range]

theorem argsortDesc_take_nodup {α : Type} [LinearOrder α] (key : Nat → α)
    (n k : Nat) : ((argsortDesc key n).take k).Nodup :=
  (List.take_sublist k (argsortDesc key n)).nodup (argsortDesc_nodup key n)

theorem argsortDesc_take_lt {α : Type} [LinearOrder α] (key : Nat → α)
    (n k : Nat) : ∀ i ∈ (argsortDesc key n).take k, i < n := by
  intro i hi
  exact (argsortDesc_mem key n i).mp ((List.take_sublist k _).mem hi)

theorem argsortDesc_take_length {α : Type} [LinearOrder α] (key : Nat → α)
    (n k : Nat) (h : k ≤ n) : ((argsortDesc key n).take k).length = k := by
  rw [List.length_take, argsortDesc_length]
  exact Nat.min_eq_left h

theorem argsortDesc_take_drop_rel {α : Type} [LinearOrder α] (key : Nat → α)
    (n k i j : Nat) (hi : i ∈ (argsortDesc key n).take k) (hj : j < n)
    (hj2 : j ∉ (argsortDesc key n).take k) :
    key j < key i ∨ (key i = key j ∧ i < j) := by
  have hsplit := List.take_append_drop k (argsortDesc key n)
  have hjL : j ∈ argsortDesc key n :=
    (argsortDesc_mem key n j).mpr hj
  rw [← hsplit] at hjL
  have hjdrop : j ∈ (argsortDesc key n).drop k := by
    rcases List.mem_append.mp hjL with h | h
    · exact absurd h hj2
    · exact h
  have hpw : List.Pairwise (argsortRel key)
      ((argsortDesc key n).take k ++ (argsortDesc key n).drop k) := by
    rw [hsplit]
    exact argsortDesc_sorted key n
  have hR := (List.pairwise_append.mp hpw).2.2 i hi j hjdrop
  have hnd : ((argsortDesc key n).take k ++ (argsortDesc key n).drop k).Nodup := by
    rw [hsplit]
    exact argsortDesc_nodup key n
  have hne : i ≠ j := by
    intro hij
    exact (List.nodup_append.mp hnd).2.2 hi (hij ▸ hjdrop)
  rcases hR with h | ⟨heq, hle⟩
  · exact Or.inl h
  · exact Or.inr ⟨heq, lt_of_le_of_ne hle hne⟩

theorem filter_not_contains_length (nodes D : List String) (hnd : nodes.Nodup)
    (hDn : D.Nodup) (hDsub : ∀ x ∈ D, x ∈ nodes) :
    (nodes.filter (fun s => ¬ D.contains s)).length = nodes.length - D.length := by
  have hsplit := List.length_eq_length_filter_add (l := nodes)
    (fun s => D.contains s)
  have hmemlen : (nodes.filter (fun s => D.contains s)).length = D.length := by
    have hperm : (nodes.filter (fun s => D.contains s)).Perm D := by
      apply List.perm_of_nodup_nodup_toFinset_eq (hnd.filter _) hDn
      ext x
      simp only [List.mem_toFinset, List.mem_filter]
      constructor
      · rintro ⟨_, hcx⟩
        simpa using hcx
      · intro hx
        exact ⟨hDsub x hx, by simpa using hx⟩
    exact hperm.length_eq
  have hpred : (fun s => decide ¬ (D.contains s = true)) = fun s => ! D.contains s := by
    funext s
    simp
  calc (nodes.filter (fun s => ¬ D.contains s)).length
      = (nodes.filter (fun s => ! D.contains s)).length := by rw [hpred]
    _ = nodes.length - D.length := by omega

/-- Claim C2 amended: for a graph with n at least 1 (distinct lemmas) and a
fraction between 0 and 1, drop-top-degree removes exactly
max(1, int(f * n)) nodes — truncation (floor), not ceiling — chosen as the
top-degree vertices of the current graph with ties broken by original
vertex order (any removed index beats any kept index by degree, or by
position on equal degree), and the surviving edge list is exactly the
input edges touching no removed lemma. -/
theorem scen_drop_top_degree_spec (frac : ℚ) (nodes : List String)
    (edges : List EdgeRec) (hn : 1 ≤ nodes.length) (h0 : 0 ≤ frac)
    (h1 : frac ≤ 1) (hnd : nodes.Nodup) :
    ((scen_drop_top_degree frac (nodes, edges)).1.length
        = nodes.length - (max 1 (pyTrunc ((nodes.length : ℚ) * frac))).toNat)
    ∧ (∀ i ∈ dropTopIdx frac (nodes, edges), ∀ j, j < nodes.length →
        j ∉ dropTopIdx frac (nodes, edges) →
        (degreeList (to_igraph nodes edges)).getD j 0
            < (degreeList (to_igraph nodes edges)).getD i 0
        ∨ ((degreeList (to_igraph nodes edges)).getD i 0
            = (degreeList (to_igraph nodes edges)).getD j 0 ∧ i < j))
    ∧ (∀ e ∈ (scen_drop_top_degree frac (nodes, edges)).2,
        e.source ∉ dropTopSet frac (nodes, edges)
        ∧ e.target ∉ dropTopSet frac (nodes, edges))
    ∧ (∀ e ∈ edges, e.source ∉ dropTopSet frac (nodes, edges) →
        e.target ∉ dropTopSet frac (nodes, edges) →
        e ∈ (scen_drop_top_degree frac (nodes, edges)).2) := by
  have hk_le : (max 1 (pyTrunc ((nodes.length : ℚ) * frac))).toNat ≤ nodes.length := by
    rw [pyTrunc_of_nonneg _ (mul_nonneg (by positivity) h0)]
    rw [Int.toNat_le]
    apply max_le
    · exact_mod_cast hn
    · calc ⌊(nodes.length : ℚ) * frac⌋
          ≤ ⌊(nodes.length : ℚ)⌋ :=
            Int.floor_le_floor (mul_le_of_le_one_right (by positivity) h1)
        _ = (nodes.length : ℤ) := Int.floor_natCast _
  have hkK : dropK frac (nodes, edges)
      = (max 1 (pyTrunc ((nodes.length : ℚ) * frac))).toNat := rfl
  have hidx : dropTopIdx frac (nodes, edges)
      = (argsortDesc (fun i => (degreeList (to_igraph nodes edges)).getD i 0)
          nodes.length).take (dropK frac (nodes, edges)) := rfl
  have hset : dropTopSet frac (nodes, edges)
      = (dropTopIdx frac (nodes, edges)).map (fun i => nodes.getD i "") := rfl
  have hInd : (dropTopIdx frac (nodes, edges)).Nodup := by
    rw [hidx]
    exact argsortDesc_take_nodup _ _ _
  have hIlt : ∀ i ∈ dropTopIdx frac (nodes, edges), i < nodes.length := by
    rw [hidx]
    exact argsortDesc_take_lt _ _ _
  have hIlen : (dropTopIdx frac (nodes, edges)).length = dropK frac (nodes, edges) := by
    rw [hidx]
    exact argsortDesc_take_length _ _ _ (hkK ▸ hk_le)
  have hDnodup : (dropTopSet frac (nodes, edges)).Nodup := by
    rw [hset]
    refine List.Nodup.map_on ?_ hInd
    intro x hx y hy hxy
    have hxl := hIlt x hx
    have hyl := hIlt y hy
    rw [List.getD_eq_get?, List.getD_eq_get?, List.get?_eq_get hxl,
      List.get?_eq_get hyl] at hxy
    simp only [Option.getD_some] at hxy
    exact congrArg Fin.val (hnd.get_inj_iff.mp hxy)
  have hDsub : ∀ s ∈ dropTopSet frac (nodes, edges), s ∈ nodes := by
    rw [hset]
    intro s hs
    rcases List.mem_map.mp hs with ⟨i, hiI, rfl⟩
    have hil := hIlt i hiI
    rw [List.getD_eq_get?, List.get?_eq_get hil]
    simp only [Option.getD_some]
    exact List.get_mem _ _ _
  have hDlen : (dropTopSet frac (nodes, edges)).length = dropK frac (nodes, edges) := by
    rw [hset, List.length_map, hIlen]
  refine ⟨?_, ?_, ?_, ?_⟩
  · show (nodes.filter
      (fun s => ¬ (dropTopSet frac (nodes, edges)).contains s)).length = _
    rw [filter_not_contains_length nodes _ hnd hDnodup hDsub, hDlen, hkK]
  · intro i hi j hjlt hj
    exact argsortDesc_take_drop_rel _ nodes.length (dropK frac (nodes, edges)) i j
      (hidx ▸ hi) hjlt (fun hc => hj (hidx ▸ hc))
  · intro e he
    have hmf := List.mem_filter.mp he
    simpa using hmf.2
  · intro e he hs ht
    show e ∈ List.filter _ edges
    refine List.mem_filter.mpr ⟨he, ?_⟩
    simpa using ⟨hs, ht⟩

/-- Claim C2 counterexample: on a 2-node graph with fraction 3/4 the
scenario removes int(2 * 3/4) = 1 node, not ceil(2 * 3/4) = 2 as the claim
states. -/
theorem drop_count_not_ceil :
    ((["a", "b"] : List String).length
        - (scen_drop_top_degree (3 / 4) (["a", "b"], ([] : List EdgeRec))).1.length = 1)
    ∧ (max 1 ⌈((["a", "b"] : List String).length : ℚ) * (3 / 4)⌉).toNat = 2 := by
  constructor
  · have hk : dropK (3 / 4) ((["a", "b"] : List String), ([] : List EdgeRec)) = 1 := by
      unfold dropK
      rw [pyTrunc_of_nonneg _ (by norm_num)]
      have hfl : ⌊((["a", "b"] : List String).length : ℚ) * (3 / 4)⌋ = 1 := by
        rw [Int.floor_eq_iff]
        norm_num
      rw [hfl]
      rfl
    have hset : dropTopSet (3 / 4) ((["a", "b"] : List String), ([] : List EdgeRec))
        = ["a"] := by
      unfold dropTopSet dropTopIdx
      rw [hk]
      decide
    have hres : (scen_drop_top_degree (3 / 4)
        ((["a", "b"] : List String), ([] : List EdgeRec))).1 = ["b"] := by
      simp only [scen_drop_top_degree]
      rw [hset]
      decide
    rw [hres]
    rfl
  · have hcl : ⌈((["a", "b"] : List String).length : ℚ) * (3 / 4)⌉ = 2 := by
      rw [Int.ceil_eq_iff]
      constructor
      · norm_num
      · norm_num
    rw [hcl]
    rfl

/-- Witness for the amended C2: 3 distinct nodes, fraction 1/2, no edges. -/
theorem scen_drop_top_degree_spec_witness :
    (scen_drop_top_degree (1 / 2) ((["a", "b", "c"] : List String),
        ([] : List EdgeRec))).1.length
      = (["a", "b", "c"] : List String).length
        - (max 1 (pyTrunc (((["a", "b", "c"] : List String).length : ℚ) * (1 / 2)))).toNat :=
  (scen_drop_top_degree_spec (1 / 2) ["a", "b", "c"] [] (by decide) (by norm_num)
    (by norm_num) (by decide)).1

theorem foldl_min_le_init (l : List ℚ) (a : ℚ) : l.foldl min a ≤ a := by
  induction l generalizing a with
  | nil => exact le_refl a
  | cons b tl ih => exact le_trans (ih (min a b)) (min_le_left a b)

theorem foldl_min_le_mem (l : List ℚ) (a x : ℚ) (hx : x ∈ l) :
    l.foldl min a ≤ x := by
  induction l generalizing a with
  | nil => simp at hx
  | cons b tl ih =>
    rcases List.mem_cons.mp hx with rfl | hx
    · exact le_trans (foldl_min_le_init tl (min a x)) (min_le_right a x)
    · exact ih (min a b) hx

theorem init_le_foldl_max (l : List ℚ) (a : ℚ) : a ≤ l.foldl max a := by
  induction l generalizing a with
  | nil => exact le_refl a
  | cons b tl ih => exact le_trans (le_max_left a b) (ih (max a b))

theorem mem_le_foldl_max (l : List ℚ) (a x : ℚ) (hx : x ∈ l) :
    x ≤ l.foldl max a := by
  induction l generalizing a with
  | nil => simp at hx
  | cons b tl ih =>
    rcases List.mem_cons.mp hx with rfl | hx
    · exact le_trans (le_max_right a x) (init_le_foldl_max tl (max a x))
    · exact ih (max a b) hx

theorem listMin_le (l : List ℚ) (x : ℚ) (hx : x ∈ l) : listMin l ≤ x :=
  foldl_min_le_mem l (l.headD 0) x hx

theorem le_listMax (l : List ℚ) (x : ℚ) (hx : x ∈ l) : x ≤ listMax l :=
  mem_le_foldl_max l (l.headD 0) x hx

theorem normCoord_bounds (v vmin vmax : ℚ) (hv1 : vmin ≤ v) (hv2 : v ≤ vmax) :
    -1000 ≤ normCoord v vmin vmax ∧ normCoord v vmin vmax ≤ 1000 := by
  unfold normCoord
  split
  · constructor <;> norm_num
  · rename_i hdeg
    push_neg at hdeg
    have hd : (0 : ℚ) < vmax - vmin := lt_of_lt_of_le (by norm_num) hdeg
    have ht0 : (0 : ℚ) ≤ (v - vmin) / (vmax - vmin) :=
      div_nonneg (by linarith) (le_of_lt hd)
    have ht1 : (v - vmin) / (vmax - vmin) ≤ 1 := (div_le_one hd).mpr (by linarith)
    have hb0 : (0 : ℚ) ≤ (v - vmin) / (vmax - vmin) * 2000 :=
      mul_nonneg ht0 (by norm_num)
    have hb1 : (v - vmin) / (vmax - vmin) * 2000 ≤ 2000 := by
      calc (v - vmin) / (vmax - vmin) * 2000
          ≤ 1 * 2000 := mul_le_mul_of_nonneg_right ht1 (by norm_num)
        _ = 2000 := one_mul _
    constructor <;> linarith

theorem normCoord_degenerate (v vmin vmax : ℚ)
    (h : vmax - vmin < 1 / 1000000000) : normCoord v vmin vmax = 0 := by
  unfold normCoord
  exact if_pos h

/-- Claim C8: every normalized coordinate produced by the cluster layout
engine lies in [-1000, 1000] on both axes, and on an axis whose observed
spread is below the 1e-9 tolerance every coordinate is exactly 0.  The
igraph layout output enters as the coords parameter, one pair per cluster. -/
theorem compute_cluster_layout_bounds (clusterMap : List (String × String))
    (rawLinks : List Link) (idMap : List (String × String))
    (coords : List (ℚ × ℚ)) (e : String × ClusterPos)
    (hlen : coords.length = (bucketsOf clusterMap).length)
    (he : e ∈ compute_cluster_layout clusterMap rawLinks idMap coords) :
    ((-1000 ≤ e.2.x ∧ e.2.x ≤ 1000) ∧ (-1000 ≤ e.2.y ∧ e.2.y ≤ 1000))
    ∧ (listMax (coords.map (fun c => c.1)) - listMin (coords.map (fun c => c.1))
        < 1 / 1000000000 → e.2.x = 0)
    ∧ (listMax (coords.map (fun c => c.2)) - listMin (coords.map (fun c => c.2))
        < 1 / 1000000000 → e.2.y = 0) := by
  unfold compute_cluster_layout at he
  simp only at he
  split at he
  · exact absurd he (List.not_mem_nil e)
  · rcases List.mem_map.mp he with ⟨ic, hic, rfl⟩
    have hiclt : ic.1 < coords.length := by
      rw [hlen]
      have hlen2 := (List.mem_enum hic).1
      simpa using hlen2
    have hcmem : coords.getD ic.1 (0, 0) ∈ coords := by
      rw [List.getD_eq_get?, List.get?_eq_get hiclt]
      simp only [Option.getD_some]
      exact List.get_mem _ _ _
    have hx : (coords.getD ic.1 (0, 0)).1 ∈ coords.map (fun c => c.1) :=
      List.mem_map.mpr ⟨_, hcmem, rfl⟩
    have hy : (coords.getD ic.1 (0, 0)).2 ∈ coords.map (fun c => c.2) :=
      List.mem_map.mpr ⟨_, hcmem, rfl⟩
    refine ⟨⟨?_, ?_⟩, ?_, ?_⟩
    · exact normCoord_bounds _ _ _ (listMin_le _ _ hx) (le_listMax _ _ hx)
    · exact normCoord_bounds _ _ _ (listMin_le _ _ hy) (le_listMax _ _ hy)
    · intro hdeg
      exact normCoord_degenerate _ _ _ hdeg
    · intro hdeg
      exact normCoord_degenerate _ _ _ hdeg

/-- Witness for C8: two clusters laid out at x-coordinates 0 and 3 with a
degenerate y-axis; the first cluster sits at the lower bound -1000 and both
y-coordinates collapse to 0. -/
theorem compute_cluster_layout_bounds_witness :
    (("c1", ({ x := -1000, y := 0, size := 1, members := ["a"] } : ClusterPos))
        ∈ compute_cluster_layout [("a", "c1"), ("b", "c2")] [] [] [(0, 0), (3, 0)])
    ∧ (((-1000 ≤ (("c1", ({ x := -1000, y := 0, size := 1, members := ["a"] }
            : ClusterPos)) : String × ClusterPos).2.x
        ∧ (("c1", ({ x := -1000, y := 0, size := 1, members := ["a"] }
            : ClusterPos)) : String × ClusterPos).2.x ≤ 1000)
       ∧ (-1000 ≤ (("c1", ({ x := -1000, y := 0, size := 1, members := ["a"] }
            : ClusterPos)) : String × ClusterPos).2.y
        ∧ (("c1", ({ x := -1000, y := 0, size := 1, members := ["a"] }
            : ClusterPos)) : String × ClusterPos).2.y ≤ 1000))
      ∧ (listMax (([((0 : ℚ), (0 : ℚ)), (3, 0)]).map (fun c => c.1))
            - listMin (([((0 : ℚ), (0 : ℚ)), (3, 0)]).map (fun c => c.1))
          < 1 / 1000000000 →
          (("c1", ({ x := -1000, y := 0, size := 1, members := ["a"] }
            : ClusterPos)) : String × ClusterPos).2.x = 0)
      ∧ (listMax (([((0 : ℚ), (0 : ℚ)), (3, 0)]).map (fun c => c.2))
            - listMin (([((0 : ℚ), (0 : ℚ)), (3, 0)]).map (fun c => c.2))
          < 1 / 1000000000 →
          (("c1", ({ x := -1000, y := 0, size := 1, members := ["a"] }
            : ClusterPos)) : String × ClusterPos).2.y = 0)) := by
  have hmem : ("c1", ({ x := -1000, y := 0, size := 1, members := ["a"] } : ClusterPos))
      ∈ compute_cluster_layout [("a", "c1"), ("b", "c2")] [] [] [(0, 0), (3, 0)] := by
    have hL : compute_cluster_layout [("a", "c1"), ("b", "c2")] [] [] [(0, 0), (3, 0)]
        = [("c1", { x := -1000, y := 0, size := 1, members := ["a"] }),
           ("c2", { x := 1000, y := 0, size := 1, members := ["b"] })] := by
      norm_num [compute_cluster_layout, bucketsOf, addBucket, listMin, listMax,
        normCoord, List.enum, List.enumFrom, List.lookup]
      decide
    rw [hL]
    exact List.mem_cons_self _ _
  exact ⟨hmem, compute_cluster_layout_bounds [("a", "c1"), ("b", "c2")] [] []
    [(0, 0), (3, 0)] _ (by decide) hmem⟩
